import Mathlib

/-!
Shallow embedding of the `sequtils` library (files `sequtils/_base.py`,
`sequtils/_point.py`, `sequtils/_range.py`): two coordinate value types,
`SequencePoint` and `SequenceRange`, their constructors, validation,
comparison and arithmetic protocols, together with the parts of the Python
runtime they rely on (decimal `int`/`str` conversion, string slicing,
`str.find`, the binary-operator and rich-comparison dispatch protocols).

Python values relevant to the library are modelled by the closed universe
`PyVal` (ints, strings as `List Char`, 2-tuples of ints, and the two
coordinate types).  Fallible Python code returns `Except PyError`;
the `NotImplemented` sentinel of the operator protocol is the `.notImpl`
constructor of `PyRes`.
-/

namespace Sequtils

/-- Error kinds raised by the library (Python exception classes). -/
inductive PyError where
  | valueError
  | typeError
  | indexError
deriving DecidableEq, Repr

/-- Result of a single dunder call in the operator protocol:
a value, a raised error, or the `NotImplemented` sentinel. -/
inductive PyRes (α : Type) where
  | ok (a : α)
  | err (e : PyError)
  | notImpl
deriving DecidableEq, Repr

/-- Python strings are modelled as lists of characters. -/
abbrev PyStr := List Char

/-! ### Decimal conversion (model of Python `str(int)` / `int(str)`) -/

/-- The character for a single decimal digit. -/
def digitChar : Nat → Char
  | 0 => '0' | 1 => '1' | 2 => '2' | 3 => '3' | 4 => '4'
  | 5 => '5' | 6 => '6' | 7 => '7' | 8 => '8' | 9 => '9'
  | _ => '*'

/-- The value of a decimal digit character, if it is one. -/
def charToDigit (c : Char) : Option Nat :=
  if '0' ≤ c ∧ c ≤ '9' then some (c.toNat - 48) else none

/-- Decimal rendering of a natural number (big-endian digit characters). -/
def natToStr (n : Nat) : PyStr :=
  if n = 0 then ['0'] else ((Nat.digits 10 n).map digitChar).reverse

/-- Model of Python `str(int)`. -/
def intToStr (n : Int) : PyStr :=
  if n < 0 then '-' :: natToStr n.natAbs else natToStr n.toNat

/-- Parse every character as a decimal digit, or fail. -/
def parseDigitsList : List Char → Option (List Nat)
  | [] => some []
  | c :: cs =>
    match charToDigit c, parseDigitsList cs with
    | some d, some ds => some (d :: ds)
    | _, _ => none

/-- Parse a nonempty all-digit string as a natural number. -/
def parseNat (cs : PyStr) : Option Nat :=
  match cs with
  | [] => none
  | _ =>
    match parseDigitsList cs with
    | some ds => some (Nat.ofDigits 10 ds.reverse)
    | none => none

/-- Model of Python `int(str)`: optional leading minus sign, then digits;
anything else raises `ValueError` (here: `none`). -/
def pyParseInt (cs : PyStr) : Option Int :=
  match cs with
  | [] => none
  | c :: rest =>
    if c = '-' then (parseNat rest).map (fun m => -(m : Int))
    else (parseNat (c :: rest)).map (fun m => (m : Int))

/-! ### String helpers (model of `str.split`, slicing, `str.find`) -/

/-- Model of Python `str.split(sep)` for a single-character separator. -/
def splitOn (sep : Char) : List Char → List (List Char)
  | [] => [[]]
  | c :: rest =>
    match splitOn sep rest with
    | [] => [[]]
    | h :: t => if c = sep then [] :: h :: t else (c :: h) :: t

/-- Model of Python string slicing `s[i:j]` (step 1), with the usual
clamping of out-of-range bounds and interpretation of negative indices. -/
def pySlice (cs : PyStr) (i j : Int) : PyStr :=
  let n : Int := cs.length
  let lo : Int := if i < 0 then max (n + i) 0 else min i n
  let hi : Int := if j < 0 then max (n + j) 0 else min j n
  (cs.take hi.toNat).drop lo.toNat

/-- Boolean prefix test on character lists. -/
def isPre : List Char → List Char → Bool
  | [], _ => true
  | _ :: _, [] => false
  | a :: as, b :: bs => decide (a = b) && isPre as bs

/-- Model of Python `full.find(sub)`: index of the leftmost occurrence
(`none` for `-1`). -/
def strFind (sub : List Char) : List Char → Option Nat
  | [] => if isPre sub [] then some 0 else none
  | c :: rest =>
    if isPre sub (c :: rest) then some 0 else (strFind sub rest).map (· + 1)

/-- Lexicographic comparison of character lists (Python `str.__lt__`). -/
def strLtB : List Char → List Char → Bool
  | [], [] => false
  | [], _ :: _ => true
  | _ :: _, [] => false
  | a :: as, b :: bs => if a < b then true else if a = b then strLtB as bs else false

/-- Lexicographic comparison of int pairs (Python tuple comparison). -/
def pairLtB (x y : Int × Int) : Bool :=
  decide (x.1 < y.1) || (decide (x.1 = y.1) && decide (x.2 < y.2))

/-! ### The two coordinate types (`sequtils/_point.py`, `sequtils/_range.py`) -/

/-- `SequencePoint`: a single 1-based position.  The Python object stores
`_pos`; `_index` and `_slice` are derived from it. -/
structure SequencePoint where
  pos : Int
deriving DecidableEq, Repr

/-- `SequencePoint.index = pos - 1` (the 0-based index). -/
def SequencePoint.index (p : SequencePoint) : Int := p.pos - 1

/-- `SequencePoint.slice = slice(index, index + 1)`. -/
def SequencePoint.slice (p : SequencePoint) : Int × Int := (p.index, p.index + 1)

/-- `SequencePoint.validate`: raises `ValueError` when `pos < 1`. -/
def SequencePoint.validate (p : SequencePoint) : Except PyError Unit :=
  if p.pos < 1 then .error .valueError else .ok ()

/-- `SequenceRange`: an inclusive 1-based interval with an optional
associated subsequence.  The Python object stores `_start`, `_stop`
(both `SequencePoint`) and `_seq`. -/
structure SequenceRange where
  start : SequencePoint
  stop : SequencePoint
  seq : Option PyStr
deriving DecidableEq, Repr

/-- `SequenceRange.length = stop.pos - start.pos + 1`. -/
def SequenceRange.length (r : SequenceRange) : Int := r.stop.pos - r.start.pos + 1

/-- `SequenceRange.pos = (start.pos, stop.pos)`. -/
def SequenceRange.pos (r : SequenceRange) : Int × Int := (r.start.pos, r.stop.pos)

/-- `SequenceRange.index = (start.index, stop.index)`. -/
def SequenceRange.index (r : SequenceRange) : Int × Int := (r.start.index, r.stop.index)

/-- `SequenceRange.slice = slice(start.pos - 1, stop.pos)`. -/
def SequenceRange.slice (r : SequenceRange) : Int × Int := (r.start.pos - 1, r.stop.pos)

/-- `SequenceRange.validate`: `start < 1` or `stop < start` raises `ValueError`. -/
def SequenceRange.validate (r : SequenceRange) : Except PyError Unit :=
  if r.start.pos < 1 then .error .valueError
  else if r.stop.pos < r.start.pos then .error .valueError
  else .ok ()

/-- `BaseSequenceLocation.is_valid`: try `validate()`, catching only
`ValueError`; other error kinds propagate. -/
def tryValidate (v : Except PyError Unit) : Except PyError Bool :=
  match v with
  | .ok _ => .ok true
  | .error .valueError => .ok false
  | .error e => .error e

/-- `SequencePoint.is_valid()`. -/
def SequencePoint.is_valid (p : SequencePoint) : Except PyError Bool :=
  tryValidate p.validate

/-- `SequenceRange.is_valid()`. -/
def SequenceRange.is_valid (r : SequenceRange) : Except PyError Bool :=
  tryValidate r.validate

/-- Closed universe of Python values the library's public API is exercised
with: ints, strings, 2-tuples of ints, and the two coordinate types. -/
inductive PyVal where
  | int (n : Int)
  | str (s : PyStr)
  | pair (a b : Int)
  | point (p : SequencePoint)
  | range (r : SequenceRange)
deriving DecidableEq, Repr

/-- A `SequenceRange` value that carries a seq is consistent when the seq
is either empty (falsy, so never length-checked) or of the range's length.
Every range the Python constructors can actually build satisfies this,
since `_get_seq` enforces it. -/
def SequenceRange.WF (r : SequenceRange) : Prop :=
  ∀ s, r.seq = some s → s ≠ [] → (s.length : Int) = r.length

/-- Well-formedness of an embedded value (trivial except for ranges). -/
def PyVal.wf : PyVal → Prop
  | .range r => r.WF
  | _ => True

/-! ### `SequencePoint` construction (`_point.py` `__new__`/`__init__`) -/

/-- The `SequencePoint` constructor `SequencePoint(position, validate=...)`.
`__new__` returns an existing point unchanged, collapses a length-1 range to
its start and raises `TypeError` for other ranges (`len()` of a
negative-length range raises `ValueError` first); `__init__` runs
`int(position)` and then `validate()` when requested. -/
def SequencePoint.make (position : PyVal) (validate : Bool) :
    Except PyError SequencePoint :=
  match position with
  | .point p => .ok p
  | .range r =>
    if r.length < 0 then .error .valueError
    else if r.length = 1 then .ok r.start
    else .error .typeError
  | .int n =>
    if validate then
      if n < 1 then .error .valueError else .ok ⟨n⟩
    else .ok ⟨n⟩
  | .str s =>
    match pyParseInt s with
    | some n =>
      if validate then
        if n < 1 then .error .valueError else .ok ⟨n⟩
      else .ok ⟨n⟩
    | none => .error .valueError
  | .pair _ _ => .error .typeError

/-- `SequencePoint.from_index(index, validate=...)`: rejects coordinate
arguments with `ValueError`, otherwise `SequencePoint(index + 1, validate)`
(where `"s" + 1` and `(a, b) + 1` raise `TypeError`). -/
def SequencePoint.from_index (index : PyVal) (validate : Bool) :
    Except PyError SequencePoint :=
  match index with
  | .point _ => .error .valueError
  | .range _ => .error .valueError
  | .int n => SequencePoint.make (.int (n + 1)) validate
  | .str _ => .error .typeError
  | .pair _ _ => .error .typeError

/-- `SequencePoint._join(other, op)`:
`from_index(op(self.index, other.index), validate=False)`. -/
def SequencePoint.join (p q : SequencePoint) (op : Int → Int → Int) : SequencePoint :=
  ⟨op p.index q.index + 1⟩

/-! ### `SequenceRange` construction (`_range.py` `__init__` and friends) -/

/-- The values the `stop` parameter of `SequenceRange.__init__` may take in
this model (a `SequenceRange` stop is not modelled; no caller in the
library passes one). -/
inductive StopVal where
  | int (n : Int)
  | str (s : PyStr)
  | point (p : SequencePoint)
  | pair (a b : Int)
deriving DecidableEq, Repr

/-- Internal state of `start`/`stop` inside `__init__` after normalization:
a plain int, a `SequencePoint` that was passed through, or an int pair that
survived to the offset-addition step (where it raises `TypeError`). -/
inductive Co where
  | i (n : Int)
  | p (pt : SequencePoint)
  | pr (a b : Int)
deriving DecidableEq, Repr

/-- The `_special` keyword of `SequenceRange.__init__`. -/
inductive Special where
  | noSpecial
  | index
  | slc
deriving DecidableEq, Repr

/-- `SequencePoint(x + offset, validate)` for an internal coordinate `x`:
an int is offset and validated; a point is offset by point-arithmetic and
passed through `SequencePoint(...)` unvalidated (the constructor returns
point arguments as-is); a tuple raises `TypeError` (`tuple + int`). -/
def coordPlusToPoint (c : Co) (off : Int) (validate : Bool) :
    Except PyError SequencePoint :=
  match c with
  | .i n => SequencePoint.make (.int (n + off)) validate
  | .p pt => .ok ⟨pt.pos + off⟩
  | .pr _ _ => .error .typeError

/-- `SequenceRange._stop_from_start_and_length(start, length)`:
`SequencePoint(start + length - 1)` with default (eager) validation; a
point `start` shifts by point-arithmetic and skips validation. -/
def stopFromStartAndLength (c : Co) (L : Int) : Except PyError SequencePoint :=
  match c with
  | .i n => SequencePoint.make (.int (n + L - 1)) true
  | .p pt => .ok ⟨pt.pos + L - 1⟩
  | .pr _ _ => .error .typeError

/-- `SequenceRange._resolve_none_stop(start, None, length, seq)`. -/
def resolveNoneStop (startc : Co) (length : Option Int) (seq1 : Option PyStr) :
    Except PyError Co :=
  match length with
  | some L => (stopFromStartAndLength startc L).map .p
  | none =>
    match seq1 with
    | some s => (stopFromStartAndLength startc (s.length : Int)).map .p
    | none => .ok startc

/-- Steps 1-3 of `SequenceRange.__init__`: decompose a range argument
(inheriting its seq when none is supplied), parse a colon string or a
2-tuple via `_valid_range`/`_parse_range` and the subsequent
`int(start)` coercion of plain strings.  Returns the normalized start,
the possibly-replaced stop, and the possibly-inherited seq. -/
def normStart (start : PyVal) (stop : Option StopVal) (seq0 full : Option PyStr) :
    Except PyError (Co × Option StopVal × Option PyStr) :=
  match start with
  | .range r =>
    if stop.isSome then .error .valueError
    else
      let seq1 := if seq0 = none ∧ full = none then r.seq else seq0
      .ok (.i r.start.pos, some (.int r.stop.pos), seq1)
  | .point p => .ok (.p p, stop, seq0)
  | .str s =>
    if ':' ∈ s then
      if stop.isSome then .error .valueError
      else
        match splitOn ':' s with
        | [s1, s2] =>
          match pyParseInt s1, pyParseInt s2 with
          | some x, some y => .ok (.i x, some (.int y), seq0)
          | _, _ => .error .valueError
        | _ => .error .valueError
    else
      match pyParseInt s with
      | some n => .ok (.i n, stop, seq0)
      | none => .error .valueError
  | .int n => .ok (.i n, stop, seq0)
  | .pair a b =>
    if stop.isSome then .error .valueError
    else .ok (.i a, some (.int b), seq0)

/-- Step 4 of `SequenceRange.__init__`: coerce a string stop with `int()`,
resolve a missing stop from `length`, `seq` or `start`. -/
def normStop (startc : Co) (stop : Option StopVal) (length : Option Int)
    (seq1 : Option PyStr) : Except PyError Co :=
  match stop with
  | some (.str s) =>
    match pyParseInt s with
    | some n => .ok (.i n)
    | none => .error .valueError
  | some (.int n) => .ok (.i n)
  | some (.point p) => .ok (.p p)
  | some (.pair a b) => .ok (.pr a b)
  | none => resolveNoneStop startc length seq1

/-- `SequenceRange._get_seq(seq, full_sequence)`: a truthy seq must match
the computed length; otherwise a truthy full sequence is sliced and must
match the length; otherwise the original seq is returned unchanged. -/
def getSeq (startP stopP : SequencePoint) (seq1 full : Option PyStr) :
    Except PyError (Option PyStr) :=
  let len : Int := stopP.pos - startP.pos + 1
  let fullBranch : Except PyError (Option PyStr) :=
    match full with
    | some f =>
      if f ≠ [] then
        let s := pySlice f (startP.pos - 1) stopP.pos
        if (s.length : Int) = len then .ok (some s) else .error .valueError
      else .ok seq1
    | none => .ok seq1
  match seq1 with
  | some s =>
    if s ≠ [] then
      if (s.length : Int) = len then .ok (some s) else .error .valueError
    else fullBranch
  | none => fullBranch

/-- `SequenceRange.__init__(start, stop, seq, full_sequence, validate=...,
length=..., _special=...)`, translated step for step from `_range.py`. -/
def SequenceRange.init (start : PyVal) (stop : Option StopVal)
    (seq0 full : Option PyStr) (validate : Bool) (length : Option Int)
    (special : Special) : Except PyError SequenceRange :=
  match normStart start stop seq0 full with
  | .error e => .error e
  | .ok (startc, stop1, seq1) =>
    match normStop startc stop1 length seq1 with
    | .error e => .error e
    | .ok stopc =>
      let offs : Int × Int :=
        match special with
        | .index => (1, 1)
        | .slc => (1, 0)
        | .noSpecial => (0, 0)
      match coordPlusToPoint startc offs.1 validate with
      | .error e => .error e
      | .ok startP =>
        match coordPlusToPoint stopc offs.2 validate with
        | .error e => .error e
        | .ok stopP =>
          let checked : Except PyError Unit :=
            if validate then SequenceRange.validate ⟨startP, stopP, seq1⟩
            else .ok ()
          match checked with
          | .error e => .error e
          | .ok _ =>
            match getSeq startP stopP seq1 full with
            | .error e => .error e
            | .ok seqF => .ok ⟨startP, stopP, seqF⟩

/-- `SequenceRange.from_index(start_index, stop_index, validate=...)`:
coordinate indexes are rejected with `ValueError`; otherwise the
constructor runs with `_special='index'`. -/
def SequenceRange.from_index (start_index : PyVal) (stop_index : Option PyVal)
    (validate : Bool) : Except PyError SequenceRange :=
  let isBase : PyVal → Bool
    | .point _ => true
    | .range _ => true
    | _ => false
  if isBase start_index then .error .valueError
  else if (stop_index.map isBase).getD false then .error .valueError
  else
    let stop : Option StopVal :=
      match stop_index with
      | none => none
      | some (.int n) => some (.int n)
      | some (.str s) => some (.str s)
      | some (.pair a b) => some (.pair a b)
      | some (.point p) => some (.point p)
      | some (.range _) => none
    SequenceRange.init start_index stop none none validate none .index

/-- `SequenceRange.from_center_and_window(center, window, max_length)`
(`max_length = none` models the default `math.inf`). -/
def SequenceRange.from_center_and_window (center window : Int)
    (max_length : Option Int) : Except PyError SequenceRange :=
  let start := max 1 (center - window)
  let stop :=
    match max_length with
    | none => center + window
    | some m => min m (center + window)
  SequenceRange.init (.int start) (some (.int stop)) none none true none .noSpecial

/-- `SequenceRange.from_sequence(full_sequence, sequence)`:
`full_sequence.find(sequence)`, `IndexError` when absent, else the
validating constructor with `seq=sequence, full_sequence=full_sequence`. -/
def SequenceRange.from_sequence (full sequence : PyStr) :
    Except PyError SequenceRange :=
  match strFind sequence full with
  | none => .error .indexError
  | some i =>
    SequenceRange.init (.int ((i : Int) + 1)) (some (.int ((i : Int) + sequence.length)))
      (some sequence) (some full) true none .noSpecial

/-- `SequenceRange._join(other, op)`: pointwise point-arithmetic on the
bounds; the seq is kept exactly when `other.start == other.stop`
(a pure offset); construction is unvalidated. -/
def SequenceRange.join (r other : SequenceRange) (op : Int → Int → Int) :
    Except PyError SequenceRange :=
  let start := SequencePoint.join r.start other.start op
  let stop := SequencePoint.join r.stop other.stop op
  if other.start.pos = other.stop.pos then
    SequenceRange.init (.point start) (some (.point stop)) r.seq none false none .noSpecial
  else
    SequenceRange.init (.point start) (some (.point stop)) none none false none .noSpecial

/-! ### Comparison gates (`_comparison_cast`) -/

/-- `BaseSequenceLocation._comparison_cast` for `SequencePoint`:
`isinstance(other, (SequencePoint, int))`. -/
def pointComparisonCast : PyVal → Bool
  | .point _ => true
  | .int _ => true
  | _ => false

/-- `SequenceRange._comparison_cast`: the base gate, or a 2-element
sequence of ints (a string is a sequence of characters, so it fails the
int-element test). -/
def rangeComparisonCast : PyVal → Bool
  | .range _ => true
  | .int _ => true
  | .pair _ _ => true
  | _ => false

/-! ### Dunder methods of the two types -/

/-- `SequencePoint.__eq__` (`_base.py`): gate, then cast through the
constructor with `validate=False` and compare `pos`.  A cast failure
propagates (`_base.py` has no try/except here), but gated operands never
fail the unvalidated cast. -/
def SequencePoint.eqOp (p : SequencePoint) (other : PyVal) : PyRes Bool :=
  if pointComparisonCast other then
    match SequencePoint.make other false with
    | .ok q => .ok (decide (p.pos = q.pos))
    | .error e => .err e
  else .notImpl

/-- `SequencePoint.__lt__` (`_base.py`): same gate and cast, comparing `pos`. -/
def SequencePoint.ltOp (p : SequencePoint) (other : PyVal) : PyRes Bool :=
  if pointComparisonCast other then
    match SequencePoint.make other false with
    | .ok q => .ok (decide (p.pos < q.pos))
    | .error e => .err e
  else .notImpl

/-- `SequencePoint.__gt__`, filled in by `functools.total_ordering`:
`not (self < other) and self != other` (with `NotImplemented` passed
through). -/
def SequencePoint.gtOp (p : SequencePoint) (other : PyVal) : PyRes Bool :=
  match p.ltOp other with
  | .notImpl => .notImpl
  | .err e => .err e
  | .ok b =>
    match p.eqOp other with
    | .ok e => .ok (!b && !e)
    | .err e' => .err e'
    | .notImpl => .notImpl

/-- The unvalidated cast `SequenceRange(other, validate=False)` used by the
range comparison dunders. -/
def SequenceRange.cmpCast (other : PyVal) : Except PyError SequenceRange :=
  SequenceRange.init other none none none false none .noSpecial

/-- `SequenceRange.__eq__` = `_eq_helper(other, compare_seq=True)`
(`_range.py`): gate, unvalidated cast, compare `pos` and `seq`. -/
def SequenceRange.eqOp (r : SequenceRange) (other : PyVal) : PyRes Bool :=
  if rangeComparisonCast other then
    match SequenceRange.cmpCast other with
    | .ok o => .ok (decide (r.pos = o.pos) && decide (r.seq = o.seq))
    | .error e => .err e
  else .notImpl

/-- `SequenceRange.__lt__` (`_base.py`): gate, unvalidated cast, then
lexicographic comparison of the `pos` tuples. -/
def SequenceRange.ltOp (r : SequenceRange) (other : PyVal) : PyRes Bool :=
  if rangeComparisonCast other then
    match SequenceRange.cmpCast other with
    | .ok o => .ok (pairLtB r.pos o.pos)
    | .error e => .err e
  else .notImpl

/-- `SequenceRange.__gt__` via `functools.total_ordering`. -/
def SequenceRange.gtOp (r : SequenceRange) (other : PyVal) : PyRes Bool :=
  match r.ltOp other with
  | .notImpl => .notImpl
  | .err e => .err e
  | .ok b =>
    match r.eqOp other with
    | .ok e => .ok (!b && !e)
    | .err e' => .err e'
    | .notImpl => .notImpl

/-! ### Arithmetic (`_base.py` `_arithmetic` / `__add__` / `__sub__`) -/

/-- The cast `_arithmetic` performs on the right operand of a
`SequencePoint` operation: another point is used as-is, a range goes
through `SequencePoint(other, validate=False)`, anything else through
`SequencePoint.from_index(other, validate=False)`. -/
def SequencePoint.arithCast (other : PyVal) : Except PyError SequencePoint :=
  match other with
  | .point q => .ok q
  | .range r => SequencePoint.make (.range r) false
  | _ => SequencePoint.from_index other false

/-- `SequencePoint._arithmetic(other, op)`: a `TypeError` from the cast
becomes `NotImplemented`; other errors propagate; success joins. -/
def SequencePoint.arithmetic (p : SequencePoint) (other : PyVal)
    (op : Int → Int → Int) : PyRes SequencePoint :=
  match SequencePoint.arithCast other with
  | .ok q => .ok (p.join q op)
  | .error .typeError => .notImpl
  | .error e => .err e

/-- The cast `_arithmetic` performs on the right operand of a
`SequenceRange` operation. -/
def SequenceRange.arithCast (other : PyVal) : Except PyError SequenceRange :=
  match other with
  | .range r2 => .ok r2
  | .point p => SequenceRange.init (.point p) none none none false none .noSpecial
  | _ => SequenceRange.from_index other none false

/-- `SequenceRange._arithmetic(other, op)`. -/
def SequenceRange.arithmetic (r : SequenceRange) (other : PyVal)
    (op : Int → Int → Int) : PyRes SequenceRange :=
  match SequenceRange.arithCast other with
  | .ok c =>
    match r.join c op with
    | .ok res => .ok res
    | .error e => .err e
  | .error .typeError => .notImpl
  | .error e => .err e

/-! ### The Python operator protocols -/

/-- `type(x).__eq__(x, o)` over the universe (native int/str/tuple
equality returns `NotImplemented` against foreign types). -/
def eqDispatch : PyVal → PyVal → PyRes Bool
  | .point p, o => p.eqOp o
  | .range r, o => r.eqOp o
  | .int a, .int b => .ok (decide (a = b))
  | .int _, _ => .notImpl
  | .str a, .str b => .ok (decide (a = b))
  | .str _, _ => .notImpl
  | .pair a b, .pair c d => .ok (decide (a = c) && decide (b = d))
  | .pair _ _, _ => .notImpl

/-- `type(x).__lt__(x, o)`. -/
def ltDispatch : PyVal → PyVal → PyRes Bool
  | .point p, o => p.ltOp o
  | .range r, o => r.ltOp o
  | .int a, .int b => .ok (decide (a < b))
  | .int _, _ => .notImpl
  | .str a, .str b => .ok (strLtB a b)
  | .str _, _ => .notImpl
  | .pair a b, .pair c d => .ok (pairLtB (a, b) (c, d))
  | .pair _ _, _ => .notImpl

/-- `type(x).__gt__(x, o)`. -/
def gtDispatch : PyVal → PyVal → PyRes Bool
  | .point p, o => p.gtOp o
  | .range r, o => r.gtOp o
  | .int a, .int b => .ok (decide (b < a))
  | .int _, _ => .notImpl
  | .str a, .str b => .ok (strLtB b a)
  | .str _, _ => .notImpl
  | .pair a b, .pair c d => .ok (pairLtB (c, d) (a, b))
  | .pair _ _, _ => .notImpl

/-- The full Python `x == o` evaluation: `__eq__`, then the reflected
`__eq__`, then the identity fallback (false for the distinct-type operands
that reach it in this universe). -/
def pyEq (x o : PyVal) : Except PyError Bool :=
  match eqDispatch x o with
  | .ok b => .ok b
  | .err e => .error e
  | .notImpl =>
    match eqDispatch o x with
    | .ok b => .ok b
    | .err e => .error e
    | .notImpl => .ok false

/-- The full Python `x < o` evaluation: `__lt__`, then the reflected
`__gt__`, then `TypeError`. -/
def pyLt (x o : PyVal) : Except PyError Bool :=
  match ltDispatch x o with
  | .ok b => .ok b
  | .err e => .error e
  | .notImpl =>
    match gtDispatch o x with
    | .ok b => .ok b
    | .err e => .error e
    | .notImpl => .error .typeError

/-- Map a function over the value of a `PyRes`. -/
def PyRes.mapv {α β : Type} (f : α → β) : PyRes α → PyRes β
  | .ok a => .ok (f a)
  | .err e => .err e
  | .notImpl => .notImpl

/-- `type(x).__add__(x, o)` over the universe (native tuple concatenation
would leave the universe; it is unreachable from the claims). -/
def addDispatch : PyVal → PyVal → PyRes PyVal
  | .point p, o => (p.arithmetic o (· + ·)).mapv .point
  | .range r, o => (r.arithmetic o (· + ·)).mapv .range
  | .int a, .int b => .ok (.int (a + b))
  | .int _, _ => .notImpl
  | .str a, .str b => .ok (.str (a ++ b))
  | .str _, _ => .notImpl
  | .pair _ _, _ => .notImpl

/-- `type(x).__sub__(x, o)` over the universe (native int subtraction;
strings and tuples have no `__sub__`). -/
def subDispatch : PyVal → PyVal → PyRes PyVal
  | .point p, o => (p.arithmetic o (· - ·)).mapv .point
  | .range r, o => (r.arithmetic o (· - ·)).mapv .range
  | .int a, .int b => .ok (.int (a - b))
  | .int _, _ => .notImpl
  | _, _ => .notImpl

/-- The full Python `x + o` evaluation: `__add__`, then the right
operand's `__radd__` (`BaseSequenceLocation.__radd__` re-runs `self +
other`, whose own fallback to the native `__radd__` of `x` yields
`NotImplemented`, hence `TypeError`), then `TypeError`. -/
def pyAdd (x o : PyVal) : Except PyError PyVal :=
  match addDispatch x o with
  | .ok v => .ok v
  | .err e => .error e
  | .notImpl =>
    match o with
    | .point _ | .range _ =>
      match addDispatch o x with
      | .ok v => .ok v
      | .err e => .error e
      | .notImpl => .error .typeError
    | _ => .error .typeError

/-- The full Python `x - o` evaluation: `__sub__`, then the right
operand's `__rsub__` (`BaseSequenceLocation.__rsub__` is
`cls.from_index(other, validate=False) - self`), then `TypeError`. -/
def pySub (x o : PyVal) : Except PyError PyVal :=
  match subDispatch x o with
  | .ok v => .ok v
  | .err e => .error e
  | .notImpl =>
    match o with
    | .point p =>
      match SequencePoint.from_index x false with
      | .error e => .error e
      | .ok q =>
        match q.arithmetic (.point p) (· - ·) with
        | .ok res => .ok (.point res)
        | .err e => .error e
        | .notImpl => .error .typeError
    | .range r =>
      match SequenceRange.from_index x none false with
      | .error e => .error e
      | .ok q =>
        match q.arithmetic (.range r) (· - ·) with
        | .ok res => .ok (.range res)
        | .err e => .error e
        | .notImpl => .error .typeError
    | _ => .error .typeError

/-! ### Stringification -/

/-- `SequencePoint.__str__`: the decimal `pos`. -/
def SequencePoint.toStr (p : SequencePoint) : PyStr := intToStr p.pos

/-- `SequenceRange.__str__`: `"start:stop"`, collapsed to `"start"` when
`start == stop`. -/
def SequenceRange.toStr (r : SequenceRange) : PyStr :=
  if r.start.pos = r.stop.pos then intToStr r.start.pos
  else intToStr r.start.pos ++ ':' :: intToStr r.stop.pos

/-- `sub` occurs in `full` at (0-based) index `i`. -/
def occursAt (full sub : List Char) (i : Nat) : Prop :=
  (full.drop i).take sub.length = sub

/-- The character list of `"ELVISLIVES"`. -/
def elvislives : PyStr := ['E', 'L', 'V', 'I', 'S', 'L', 'I', 'V', 'E', 'S']

/-- The character list of `"LIVE"`. -/
def liveStr : PyStr := ['L', 'I', 'V', 'E']

/-- Does the protocol result hold a `SequenceRange`? -/
def isRangeRes (x : Except PyError PyVal) : Bool :=
  match x with
  | .ok (.range _) => true
  | _ => false

/-! ### Lemmas: decimal round-trip -/

theorem charToDigit_digitChar {d : Nat} (hd : d < 10) :
    charToDigit (digitChar d) = some d := by
  interval_cases d <;> decide

theorem digitChar_ne_dash {d : Nat} (hd : d < 10) : digitChar d ≠ '-' := by
  interval_cases d <;> decide

theorem digitChar_ne_colon {d : Nat} (hd : d < 10) : digitChar d ≠ ':' := by
  interval_cases d <;> decide

theorem parseDigitsList_map_digitChar (l : List Nat) (h : ∀ d ∈ l, d < 10) :
    parseDigitsList (l.map digitChar) = some l := by
  induction l with
  | nil => rfl
  | cons d ds ih =>
    have hd : d < 10 := h d (by simp)
    have hds : ∀ x ∈ ds, x < 10 := fun x hx => h x (by simp [hx])
    simp [parseDigitsList, charToDigit_digitChar hd, ih hds]

theorem natToStr_mem {n : Nat} {c : Char} (hc : c ∈ natToStr n) :
    ∃ d, d < 10 ∧ c = digitChar d := by
  unfold natToStr at hc
  by_cases h0 : n = 0
  · simp [h0] at hc
    exact ⟨0, by omega, by simp [hc]; rfl⟩
  · simp [h0] at hc
    obtain ⟨d, hd, rfl⟩ := hc
    exact ⟨d, Nat.digits_lt_base (by omega) hd, rfl⟩

theorem natToStr_ne_nil (n : Nat) : natToStr n ≠ [] := by
  unfold natToStr
  by_cases h0 : n = 0
  · simp [h0]
  · simp [h0, Nat.digits_ne_nil_iff_ne_zero.mpr h0]

theorem parseNat_natToStr (n : Nat) : parseNat (natToStr n) = some n := by
  by_cases h0 : n = 0
  · subst h0; rfl
  · have hne := natToStr_ne_nil n
    have hdig : ∀ d ∈ (Nat.digits 10 n).reverse, d < 10 := by
      intro d hd
      exact Nat.digits_lt_base (by omega) (List.mem_reverse.mp hd)
    have hmap : natToStr n = ((Nat.digits 10 n).reverse).map digitChar := by
      unfold natToStr
      simp [h0, List.map_reverse]
    have hparse : parseDigitsList (natToStr n) = some ((Nat.digits 10 n).reverse) := by
      rw [hmap]; exact parseDigitsList_map_digitChar _ hdig
    rcases hcs : natToStr n with _ | ⟨c, cs⟩
    · exact absurd hcs hne
    · rw [hcs] at hparse
      simp [parseNat, hparse, Nat.ofDigits_digits]

theorem natToStr_head_ne_dash {n : Nat} {c : Char} {cs : List Char}
    (h : natToStr n = c :: cs) : c ≠ '-' := by
  have hc : c ∈ natToStr n := by rw [h]; simp
  obtain ⟨d, hd, rfl⟩ := natToStr_mem hc
  exact digitChar_ne_dash hd

theorem pyParseInt_intToStr (n : Int) : pyParseInt (intToStr n) = some n := by
  by_cases hn : n < 0
  · have : intToStr n = '-' :: natToStr n.natAbs := by simp [intToStr, hn]
    rw [this]
    simp [pyParseInt, parseNat_natToStr]
    rw [abs_of_nonpos hn.le, neg_neg]
  · have : intToStr n = natToStr n.toNat := by simp [intToStr, hn]
    rw [this]
    rcases hcs : natToStr n.toNat with _ | ⟨c, cs⟩
    · exact absurd hcs (natToStr_ne_nil _)
    · have hcd : c ≠ '-' := natToStr_head_ne_dash hcs
      have hpn : parseNat (c :: cs) = some n.toNat := by
        rw [← hcs]; exact parseNat_natToStr _
      simp [pyParseInt, hcd, hpn]
      omega

theorem colon_not_mem_natToStr (n : Nat) : ':' ∉ natToStr n := by
  intro hc
  obtain ⟨d, hd, hcd⟩ := natToStr_mem hc
  exact digitChar_ne_colon hd hcd.symm

theorem colon_not_mem_intToStr (n : Int) : ':' ∉ intToStr n := by
  intro hc
  unfold intToStr at hc
  by_cases hn : n < 0
  · rw [if_pos hn, List.mem_cons] at hc
    rcases hc with h | h
    · exact absurd h.symm (by decide)
    · exact colon_not_mem_natToStr _ h
  · rw [if_neg hn] at hc
    exact colon_not_mem_natToStr _ hc

/-! ### Lemmas: `splitOn` -/

theorem splitOn_of_not_mem {sep : Char} {xs : List Char} (h : sep ∉ xs) :
    splitOn sep xs = [xs] := by
  induction xs with
  | nil => rfl
  | cons c rest ih =>
    have hc : c ≠ sep := fun hceq => h (by simp [hceq])
    have hrest : sep ∉ rest := fun hm => h (by simp [hm])
    simp [splitOn, ih hrest, hc]

theorem splitOn_append {sep : Char} {xs ys : List Char} (h : sep ∉ xs) :
    splitOn sep (xs ++ sep :: ys) = xs :: splitOn sep ys := by
  induction xs with
  | nil =>
    simp [splitOn]
    rcases hys : splitOn sep ys with _ | ⟨h0, t0⟩
    · exfalso
      induction ys with
      | nil => simp [splitOn] at hys
      | cons c rest ihy =>
        simp [splitOn] at hys
        rcases hr : splitOn sep rest with _ | ⟨h1, t1⟩
        · exact ihy hr
        · rw [hr] at hys; by_cases hcs : c = sep <;> simp [hcs] at hys
    · rfl
  | cons c rest ih =>
    have hc : c ≠ sep := fun hceq => h (by simp [hceq])
    have hrest : sep ∉ rest := fun hm => h (by simp [hm])
    simp only [List.cons_append, splitOn, List.append_eq]
    rw [ih hrest]
    simp [hc]

theorem splitOn_ne_nil (sep : Char) (xs : List Char) : splitOn sep xs ≠ [] := by
  induction xs with
  | nil => simp [splitOn]
  | cons c rest ih =>
    simp only [splitOn]
    rcases hr : splitOn sep rest with _ | ⟨h0, t0⟩
    · exact absurd hr ih
    · by_cases hcs : c = sep <;> simp [hcs]

/-! ### Lemmas: substring search -/

theorem isPre_iff (s t : List Char) : isPre s t = true ↔ t.take s.length = s := by
  induction s generalizing t with
  | nil => simp [isPre]
  | cons a as ih =>
    cases t with
    | nil => simp [isPre]
    | cons b bs =>
      simp [isPre, ih bs]
      intro _
      exact eq_comm

theorem strFind_eq_some {sub full : List Char} {i : Nat}
    (h : strFind sub full = some i) :
    occursAt full sub i ∧ ∀ j, j < i → ¬ occursAt full sub j := by
  induction full generalizing i with
  | nil =>
    unfold strFind at h
    by_cases hp : isPre sub [] = true
    · rw [if_pos hp] at h
      obtain rfl : i = 0 := by injection h; omega
      refine ⟨(isPre_iff _ _).mp hp, fun j hj => absurd hj (by omega)⟩
    · rw [if_neg hp] at h; cases h
  | cons c rest ih =>
    unfold strFind at h
    by_cases hp : isPre sub (c :: rest) = true
    · rw [if_pos hp] at h
      obtain rfl : i = 0 := by injection h; omega
      refine ⟨(isPre_iff _ _).mp hp, fun j hj => absurd hj (by omega)⟩
    · rw [if_neg hp] at h
      rcases hrec : strFind sub rest with _ | i'
      · rw [hrec] at h; cases h
      · rw [hrec] at h
        obtain rfl : i = i' + 1 := by
          simp only [Option.map_some'] at h; injection h; omega
        obtain ⟨hocc, hmin⟩ := ih hrec
        refine ⟨hocc, fun j hj => ?_⟩
        cases j with
        | zero =>
          intro h0
          exact hp ((isPre_iff _ _).mpr h0)
        | succ j' =>
          intro hjo
          exact hmin j' (by omega) hjo

theorem strFind_eq_none {sub full : List Char}
    (h : strFind sub full = none) : ∀ j, ¬ occursAt full sub j := by
  induction full with
  | nil =>
    unfold strFind at h
    by_cases hp : isPre sub [] = true
    · rw [if_pos hp] at h; cases h
    · rw [if_neg hp] at h
      intro j hj
      unfold occursAt at hj
      simp at hj
      exact hp ((isPre_iff _ _).mpr (by simp [hj]))
  | cons c rest ih =>
    unfold strFind at h
    by_cases hp : isPre sub (c :: rest) = true
    · rw [if_pos hp] at h; cases h
    · rw [if_neg hp] at h
      rcases hrec : strFind sub rest with _ | i'
      · intro j
        cases j with
        | zero => exact fun h0 => hp ((isPre_iff _ _).mpr h0)
        | succ j' => exact ih hrec j'
      · rw [hrec] at h; cases h

/-! ### Lemmas: evaluating the `SequenceRange` constructor -/

theorem init_int_int (a b : Int) (h1 : 1 ≤ a) (h2 : a ≤ b) :
    SequenceRange.init (.int a) (some (.int b)) none none true none .noSpecial
      = .ok ⟨⟨a⟩, ⟨b⟩, none⟩ := by
  have hb : ¬(b < 1) := by omega
  have ha : ¬(a < 1) := by omega
  have hba : ¬(b < a) := by omega
  simp [SequenceRange.init, normStart, normStop, coordPlusToPoint,
        SequencePoint.make, ha, hb, hba, SequenceRange.validate, getSeq]

theorem init_int_int_novalidate (a b : Int) :
    SequenceRange.init (.int a) (some (.int b)) none none false none .noSpecial
      = .ok ⟨⟨a⟩, ⟨b⟩, none⟩ := by
  simp [SequenceRange.init, normStart, normStop, coordPlusToPoint,
        SequencePoint.make, getSeq]

theorem init_int_cast (n : Int) :
    SequenceRange.cmpCast (.int n) = .ok ⟨⟨n⟩, ⟨n⟩, none⟩ := by
  simp [SequenceRange.cmpCast, SequenceRange.init, normStart, normStop,
        resolveNoneStop, coordPlusToPoint, SequencePoint.make, getSeq]

theorem init_pair_cast (a b : Int) :
    SequenceRange.cmpCast (.pair a b) = .ok ⟨⟨a⟩, ⟨b⟩, none⟩ := by
  simp [SequenceRange.cmpCast, SequenceRange.init, normStart, normStop,
        coordPlusToPoint, SequencePoint.make, getSeq]

theorem init_range_cast {r : SequenceRange} (h : r.WF) :
    SequenceRange.cmpCast (.range r) = .ok r := by
  obtain ⟨⟨sp⟩, ⟨tp⟩, sq⟩ := r
  rcases sq with _ | s
  · simp [SequenceRange.cmpCast, SequenceRange.init, normStart, normStop,
          coordPlusToPoint, SequencePoint.make, getSeq]
  · by_cases hnil : s = []
    · subst hnil
      simp [SequenceRange.cmpCast, SequenceRange.init, normStart, normStop,
            coordPlusToPoint, SequencePoint.make, getSeq]
    · have hlen := h s rfl hnil
      simp only [SequenceRange.length] at hlen
      simp [SequenceRange.cmpCast, SequenceRange.init, normStart, normStop,
            coordPlusToPoint, SequencePoint.make, getSeq, hnil, hlen]

theorem init_point_cast (p : SequencePoint) :
    SequenceRange.init (.point p) none none none false none .noSpecial
      = .ok ⟨p, p, none⟩ := by
  simp [SequenceRange.init, normStart, normStop, resolveNoneStop,
        coordPlusToPoint, getSeq]

theorem init_point_point (s t : SequencePoint) (sq : Option PyStr) :
    SequenceRange.init (.point s) (some (.point t)) sq none false none .noSpecial
      = (getSeq s t sq none).map (fun sf => ⟨s, t, sf⟩) := by
  obtain ⟨sp⟩ := s
  obtain ⟨tp⟩ := t
  simp only [SequenceRange.init, normStart, normStop, coordPlusToPoint,
             Option.isSome_none, Bool.false_eq_true, if_false, Int.add_zero]
  rcases hg : getSeq ⟨sp⟩ ⟨tp⟩ sq none with e | sf <;> simp [hg, Except.map]

theorem from_index_int (k : Int) :
    SequenceRange.from_index (.int k) none false = .ok ⟨⟨k + 1⟩, ⟨k + 1⟩, none⟩ := by
  simp [SequenceRange.from_index, SequenceRange.init, normStart, normStop,
        resolveNoneStop, coordPlusToPoint, SequencePoint.make, getSeq]

theorem from_index_pair (a b : Int) (v : Bool) :
    SequenceRange.from_index (.pair a b) none v
      = SequenceRange.init (.int a) (some (.int b)) none none v none .index := by
  simp [SequenceRange.from_index, SequenceRange.init, normStart]

/-! ### Lemmas: point arithmetic -/

theorem pyAdd_point_point (p q : SequencePoint) :
    pyAdd (.point p) (.point q) = .ok (.point ⟨p.pos + q.pos - 1⟩) := by
  simp [pyAdd, addDispatch, SequencePoint.arithmetic, SequencePoint.arithCast,
        PyRes.mapv, SequencePoint.join, SequencePoint.index]
  ring

theorem pySub_point_point (p q : SequencePoint) :
    pySub (.point p) (.point q) = .ok (.point ⟨p.pos - q.pos + 1⟩) := by
  simp [pySub, subDispatch, SequencePoint.arithmetic, SequencePoint.arithCast,
        PyRes.mapv, SequencePoint.join, SequencePoint.index]

theorem pyAdd_point_int (p : SequencePoint) (k : Int) :
    pyAdd (.point p) (.int k) = .ok (.point ⟨p.pos + k⟩) := by
  simp [pyAdd, addDispatch, SequencePoint.arithmetic, SequencePoint.arithCast,
        SequencePoint.from_index, SequencePoint.make, PyRes.mapv,
        SequencePoint.join, SequencePoint.index]
  ring

theorem pySub_point_int (p : SequencePoint) (k : Int) :
    pySub (.point p) (.int k) = .ok (.point ⟨p.pos - k⟩) := by
  simp [pySub, subDispatch, SequencePoint.arithmetic, SequencePoint.arithCast,
        SequencePoint.from_index, SequencePoint.make, PyRes.mapv,
        SequencePoint.join, SequencePoint.index]
  ring

theorem pyAdd_int_point (k : Int) (p : SequencePoint) :
    pyAdd (.int k) (.point p) = .ok (.point ⟨p.pos + k⟩) := by
  simp [pyAdd, addDispatch, SequencePoint.arithmetic, SequencePoint.arithCast,
        SequencePoint.from_index, SequencePoint.make, PyRes.mapv,
        SequencePoint.join, SequencePoint.index]
  ring

theorem pyEq_point_point (p q : SequencePoint) :
    pyEq (.point p) (.point q) = .ok (decide (p.pos = q.pos)) := by
  simp [pyEq, eqDispatch, SequencePoint.eqOp, pointComparisonCast,
        SequencePoint.make]

/-! ## Claim theorems -/

/-- **C1.** Addition and subtraction on `SequencePoint` are computed in
0-based index space: `Point(n) + Point(m) == Point(n + m - 1)` (and
`Point(n) - Point(m) == Point(n - m + 1)`), a plain integer `k` on either
side of `+`/`-` acts as an index-space offset (`Point(n) + k == Point(n + k)`,
`Point(n) - k == Point(n - k)`, `k + Point(n) == Point(n + k)`), and in
particular `Point(1) + Point(1) == Point(1)` and `Point(1) + 1 == Point(2)`. -/
theorem C1_point_arithmetic_index_based (n m k : Int) (hn : 1 ≤ n) (hm : 1 ≤ m) :
    SequencePoint.make (.int n) true = .ok ⟨n⟩ ∧
    pyAdd (.point ⟨n⟩) (.point ⟨m⟩) = .ok (.point ⟨n + m - 1⟩) ∧
    pySub (.point ⟨n⟩) (.point ⟨m⟩) = .ok (.point ⟨n - m + 1⟩) ∧
    pyAdd (.point ⟨n⟩) (.int k) = .ok (.point ⟨n + k⟩) ∧
    pySub (.point ⟨n⟩) (.int k) = .ok (.point ⟨n - k⟩) ∧
    pyAdd (.int k) (.point ⟨n⟩) = .ok (.point ⟨n + k⟩) ∧
    (pyAdd (.point ⟨n⟩) (.point ⟨m⟩)).bind (fun v => pyEq v (.point ⟨n + m - 1⟩))
      = .ok true ∧
    (pyAdd (.point ⟨n⟩) (.int k)).bind (fun v => pyEq v (.point ⟨n + k⟩))
      = .ok true ∧
    pyAdd (.point ⟨1⟩) (.point ⟨1⟩) = .ok (.point ⟨1⟩) ∧
    pyAdd (.point ⟨1⟩) (.int 1) = .ok (.point ⟨2⟩) := by
  have h1 : ¬(n < 1) := by omega
  refine ⟨by simp [SequencePoint.make, h1], pyAdd_point_point _ _,
          pySub_point_point _ _, pyAdd_point_int _ _, pySub_point_int _ _,
          pyAdd_int_point _ _, ?_, ?_, ?_, ?_⟩
  · rw [pyAdd_point_point]
    simp [Except.bind, pyEq_point_point]
  · rw [pyAdd_point_int]
    simp [Except.bind, pyEq_point_point]
  · rw [pyAdd_point_point]; norm_num
  · rw [pyAdd_point_int]; norm_num

/-- Witness for C1 at `n = 2`, `m = 3`, `k = 5`. -/
theorem C1_witness :
    (1 : Int) ≤ 2 ∧ (1 : Int) ≤ 3 ∧
    pyAdd (.point ⟨2⟩) (.point ⟨3⟩) = .ok (.point ⟨4⟩) :=
  ⟨by norm_num, by norm_num,
    (C1_point_arithmetic_index_based 2 3 5 (by norm_num) (by norm_num)).2.1⟩

/-- **C3.** Out-of-range subtraction results are constructed without
raising: `Point(n) - k` always succeeds, in particular `Point(2) - 2`
yields `Point(0)`, whose `is_valid()` is `false`; and `is_valid()` is
exactly "attempt `validate()`, catching only the `ValueError` kind":
it is `true` iff `validate()` succeeds and `false` iff `validate()`
raises `ValueError`, for points and ranges alike. -/
theorem C3_lazy_validation :
    (∀ n k : Int, pySub (.point ⟨n⟩) (.int k) = .ok (.point ⟨n - k⟩)) ∧
    pySub (.point ⟨2⟩) (.int 2) = .ok (.point ⟨0⟩) ∧
    SequencePoint.is_valid ⟨0⟩ = .ok false ∧
    (∀ p : SequencePoint, p.is_valid = tryValidate p.validate) ∧
    (∀ p : SequencePoint,
      (p.is_valid = .ok true ↔ p.validate = .ok ()) ∧
      (p.is_valid = .ok false ↔ p.validate = .error .valueError)) ∧
    (∀ r : SequenceRange, r.is_valid = tryValidate r.validate) ∧
    (∀ r : SequenceRange,
      (r.is_valid = .ok true ↔ r.validate = .ok ()) ∧
      (r.is_valid = .ok false ↔ r.validate = .error .valueError)) := by
  refine ⟨fun n k => pySub_point_int ⟨n⟩ k, ?_, rfl, fun p => rfl, ?_,
          fun r => rfl, ?_⟩
  · have h := pySub_point_int ⟨2⟩ 2
    simpa using h
  · intro p
    unfold SequencePoint.is_valid tryValidate SequencePoint.validate
    by_cases h : p.pos < 1 <;> simp [h]
  · intro r
    unfold SequenceRange.is_valid tryValidate SequenceRange.validate
    by_cases h1 : r.start.pos < 1
    · simp [h1]
    · by_cases h2 : r.stop.pos < r.start.pos <;> simp [h1, h2]

/-- **C2.** Failure-mode asymmetry: for a `SequencePoint` (resp.
`SequenceRange`) and an operand that cannot be cast to its type by the
(unvalidated) constructor, `==` evaluates to `False` without raising while
`<` raises `TypeError`.  (The range operand is required to be a value the
Python constructors can actually produce, i.e. well-formed.) -/
theorem C2_eq_quiet_lt_loud (p : SequencePoint) (r : SequenceRange) (o o2 : PyVal)
    (hp : ∃ e, SequencePoint.make o false = .error e)
    (hr : ∃ e, SequenceRange.cmpCast o2 = .error e)
    (hwf : o2.wf) :
    pyEq (.point p) o = .ok false ∧
    pyLt (.point p) o = .error .typeError ∧
    pyEq (.range r) o2 = .ok false ∧
    pyLt (.range r) o2 = .error .typeError := by
  obtain ⟨e, he⟩ := hp
  obtain ⟨e2, he2⟩ := hr
  refine ⟨?_, ?_, ?_, ?_⟩
  · cases o with
    | int n => simp [SequencePoint.make] at he
    | point q => simp [SequencePoint.make] at he
    | str s =>
      simp [pyEq, eqDispatch, SequencePoint.eqOp, pointComparisonCast]
    | pair a b =>
      simp [pyEq, eqDispatch, SequencePoint.eqOp, pointComparisonCast]
    | range r2 =>
      simp [pyEq, eqDispatch, SequencePoint.eqOp, pointComparisonCast,
            SequenceRange.eqOp, rangeComparisonCast]
  · cases o with
    | int n => simp [SequencePoint.make] at he
    | point q => simp [SequencePoint.make] at he
    | str s =>
      simp [pyLt, ltDispatch, SequencePoint.ltOp, pointComparisonCast, gtDispatch]
    | pair a b =>
      simp [pyLt, ltDispatch, SequencePoint.ltOp, pointComparisonCast, gtDispatch]
    | range r2 =>
      simp [pyLt, ltDispatch, SequencePoint.ltOp, pointComparisonCast, gtDispatch,
            SequenceRange.gtOp, SequenceRange.ltOp, rangeComparisonCast]
  · cases o2 with
    | int n => rw [init_int_cast] at he2; cases he2
    | pair a b => rw [init_pair_cast] at he2; cases he2
    | point q =>
      rw [show SequenceRange.cmpCast (.point q)
            = SequenceRange.init (.point q) none none none false none .noSpecial
          from rfl, init_point_cast] at he2
      cases he2
    | range r2 =>
      rw [init_range_cast hwf] at he2; cases he2
    | str s =>
      simp [pyEq, eqDispatch, SequenceRange.eqOp, rangeComparisonCast]
  · cases o2 with
    | int n => rw [init_int_cast] at he2; cases he2
    | pair a b => rw [init_pair_cast] at he2; cases he2
    | point q =>
      rw [show SequenceRange.cmpCast (.point q)
            = SequenceRange.init (.point q) none none none false none .noSpecial
          from rfl, init_point_cast] at he2
      cases he2
    | range r2 =>
      rw [init_range_cast hwf] at he2; cases he2
    | str s =>
      simp [pyLt, ltDispatch, SequenceRange.ltOp, rangeComparisonCast, gtDispatch]

/-- Witness for C2 at `Point(1)`, `Range(1,2)` and the unparsable string
operand `"a"`. -/
theorem C2_witness :
    (∃ e, SequencePoint.make (.str ['a']) false = .error e) ∧
    (∃ e, SequenceRange.cmpCast (.str ['a']) = .error e) ∧
    PyVal.wf (.str ['a']) ∧
    (pyEq (.point ⟨1⟩) (.str ['a']) = .ok false ∧
     pyLt (.point ⟨1⟩) (.str ['a']) = .error .typeError ∧
     pyEq (.range ⟨⟨1⟩, ⟨2⟩, none⟩) (.str ['a']) = .ok false ∧
     pyLt (.range ⟨⟨1⟩, ⟨2⟩, none⟩) (.str ['a']) = .error .typeError) :=
  ⟨⟨.valueError, rfl⟩, ⟨.valueError, rfl⟩, trivial,
    C2_eq_quiet_lt_loud ⟨1⟩ ⟨⟨1⟩, ⟨2⟩, none⟩ (.str ['a']) (.str ['a'])
      ⟨.valueError, rfl⟩ ⟨.valueError, rfl⟩ trivial⟩

/-! ### Lemmas for the round-trip claim -/

theorem init_index_int_int (x y : Int) (h1 : 0 ≤ x) (h2 : x ≤ y) :
    SequenceRange.init (.int x) (some (.int y)) none none true none .index
      = .ok ⟨⟨x + 1⟩, ⟨y + 1⟩, none⟩ := by
  have ha : ¬(x + 1 < 1) := by omega
  have hb : ¬(y + 1 < 1) := by omega
  have hba : ¬(y + 1 < x + 1) := by omega
  simp [SequenceRange.init, normStart, normStop, coordPlusToPoint,
        SequencePoint.make, ha, hb, hba, SequenceRange.validate, getSeq]

theorem init_str_nocolon (s : PyStr) (x : Int) (hsep : ':' ∉ s)
    (hparse : pyParseInt s = some x) (hx : 1 ≤ x) :
    SequenceRange.init (.str s) none none none true none .noSpecial
      = .ok ⟨⟨x⟩, ⟨x⟩, none⟩ := by
  have ha : ¬(x < 1) := by omega
  simp [SequenceRange.init, normStart, hsep, hparse, normStop, resolveNoneStop,
        coordPlusToPoint, SequencePoint.make, ha, SequenceRange.validate, getSeq]

theorem init_str_colon (s1 s2 : PyStr) (x y : Int)
    (h1 : ':' ∉ s1) (h2 : ':' ∉ s2)
    (hp1 : pyParseInt s1 = some x) (hp2 : pyParseInt s2 = some y)
    (hx : 1 ≤ x) (hxy : x ≤ y) :
    SequenceRange.init (.str (s1 ++ ':' :: s2)) none none none true none .noSpecial
      = .ok ⟨⟨x⟩, ⟨y⟩, none⟩ := by
  have hmem : ':' ∈ s1 ++ ':' :: s2 := by simp
  have hsplit : splitOn ':' (s1 ++ ':' :: s2) = [s1, s2] := by
    rw [splitOn_append h1, splitOn_of_not_mem h2]
  have ha : ¬(x < 1) := by omega
  have hb : ¬(y < 1) := by omega
  have hba : ¬(y < x) := by omega
  simp [SequenceRange.init, normStart, hmem, hsplit, hp1, hp2, normStop,
        coordPlusToPoint, SequencePoint.make, ha, hb, hba,
        SequenceRange.validate, getSeq]

theorem pyEq_range_refl {r : SequenceRange} (h : r.WF) :
    pyEq (.range r) (.range r) = .ok true := by
  simp [pyEq, eqDispatch, SequenceRange.eqOp, rangeComparisonCast,
        init_range_cast h]

/-- **C4.** Round-trip identities, for all valid bounds `1 ≤ a ≤ b`,
`1 ≤ n`: `Range.from_index(Range(a,b).index) == Range(a,b)` (the `.index`
pair is passed back as a 2-tuple), `Point.from_index(Point(n).index) ==
Point(n)`, and the stringified forms reconstruct the same values,
`Range(str(Range(a,b))) == Range(a,b)` (including the collapsed
single-position form when `a = b`) and `Point(str(Point(n))) == Point(n)`. -/
theorem C4_roundtrips (a b n : Int) (ha : 1 ≤ a) (hab : a ≤ b) (hn : 1 ≤ n) :
    SequenceRange.init (.int a) (some (.int b)) none none true none .noSpecial
      = .ok ⟨⟨a⟩, ⟨b⟩, none⟩ ∧
    SequenceRange.from_index
        (.pair (SequenceRange.index ⟨⟨a⟩, ⟨b⟩, none⟩).1
               (SequenceRange.index ⟨⟨a⟩, ⟨b⟩, none⟩).2) none true
      = .ok ⟨⟨a⟩, ⟨b⟩, none⟩ ∧
    SequencePoint.from_index (.int (SequencePoint.index ⟨n⟩)) true = .ok ⟨n⟩ ∧
    SequenceRange.init (.str (SequenceRange.toStr ⟨⟨a⟩, ⟨b⟩, none⟩))
        none none none true none .noSpecial = .ok ⟨⟨a⟩, ⟨b⟩, none⟩ ∧
    SequencePoint.make (.str (SequencePoint.toStr ⟨n⟩)) true = .ok ⟨n⟩ ∧
    pyEq (.range ⟨⟨a⟩, ⟨b⟩, none⟩) (.range ⟨⟨a⟩, ⟨b⟩, none⟩) = .ok true ∧
    pyEq (.point ⟨n⟩) (.point ⟨n⟩) = .ok true := by
  have hwf : SequenceRange.WF ⟨⟨a⟩, ⟨b⟩, none⟩ := by
    intro s hs; cases hs
  refine ⟨init_int_int a b ha hab, ?_, ?_, ?_, ?_, pyEq_range_refl hwf, ?_⟩
  · rw [show (SequenceRange.index ⟨⟨a⟩, ⟨b⟩, none⟩).1 = a - 1 from rfl,
        show (SequenceRange.index ⟨⟨a⟩, ⟨b⟩, none⟩).2 = b - 1 from rfl,
        from_index_pair, init_index_int_int (a - 1) (b - 1) (by omega) (by omega)]
    norm_num
  · rw [show SequencePoint.index ⟨n⟩ = n - 1 from rfl]
    have h1 : ¬(n - 1 + 1 < 1) := by omega
    simp [SequencePoint.from_index, SequencePoint.make, h1]
    omega
  · rw [show SequenceRange.toStr ⟨⟨a⟩, ⟨b⟩, none⟩
        = if a = b then intToStr a else intToStr a ++ ':' :: intToStr b from rfl]
    by_cases hb : a = b
    · subst hb
      rw [if_pos rfl]
      exact init_str_nocolon _ a (colon_not_mem_intToStr a) (pyParseInt_intToStr a) ha
    · rw [if_neg hb]
      exact init_str_colon _ _ a b (colon_not_mem_intToStr a) (colon_not_mem_intToStr b)
        (pyParseInt_intToStr a) (pyParseInt_intToStr b) ha hab
  · rw [show SequencePoint.toStr ⟨n⟩ = intToStr n from rfl]
    have h1 : ¬(n < 1) := by omega
    simp [SequencePoint.make, pyParseInt_intToStr, h1]
  · simp [pyEq_point_point]

/-- Witness for C4 at `a = 5`, `b = 9`, `n = 3`. -/
theorem C4_witness :
    (1 : Int) ≤ 5 ∧ (5 : Int) ≤ 9 ∧ (1 : Int) ≤ 3 ∧
    SequenceRange.init (.str (SequenceRange.toStr ⟨⟨5⟩, ⟨9⟩, none⟩))
        none none none true none .noSpecial = .ok ⟨⟨5⟩, ⟨9⟩, none⟩ :=
  ⟨by norm_num, by norm_num, by norm_num,
    (C4_roundtrips 5 9 3 (by norm_num) (by norm_num) (by norm_num)).2.2.2.1⟩

/-! ### Lemmas for `from_sequence` -/

theorem init_seq_and_full (i : Nat) (sub full : PyStr) (hne : sub ≠ []) :
    SequenceRange.init (.int ((i : Int) + 1)) (some (.int ((i : Int) + sub.length)))
        (some sub) (some full) true none .noSpecial
      = .ok ⟨⟨(i : Int) + 1⟩, ⟨(i : Int) + sub.length⟩, some sub⟩ := by
  have hL : 1 ≤ (sub.length : Int) := by
    have : sub.length ≠ 0 := fun h => hne (List.length_eq_zero.mp h)
    omega
  have ha : ¬((i : Int) + 1 < 1) := by omega
  have hb : ¬((i : Int) + sub.length < 1) := by omega
  have hba : ¬((i : Int) + sub.length < (i : Int) + 1) := by omega
  have hlen : ((sub.length : Nat) : Int)
      = (i : Int) + sub.length - ((i : Int) + 1) + 1 := by omega
  simp [SequenceRange.init, normStart, normStop, coordPlusToPoint,
        SequencePoint.make, ha, hb, hba, SequenceRange.validate, getSeq, hne]

theorem occursAt_le_length {full sub : PyStr} {i : Nat}
    (h : occursAt full sub i) (hne : sub ≠ []) :
    i + sub.length ≤ full.length := by
  have hl := congrArg List.length h
  simp [List.length_take, List.length_drop] at hl
  have hpos : 1 ≤ sub.length := by
    have : sub.length ≠ 0 := fun h0 => hne (List.length_eq_zero.mp h0)
    omega
  omega

theorem pySlice_occurs {full sub : PyStr} {i : Nat}
    (h : occursAt full sub i) (hne : sub ≠ []) :
    pySlice full (i : Int) ((i : Int) + sub.length) = sub := by
  have hle := occursAt_le_length h hne
  have h1 : ¬((i : Int) < 0) := by omega
  have h2 : ¬((i : Int) + sub.length < 0) := by omega
  have h3 : min ((i : Int)) ((full.length : Nat) : Int) = (i : Int) := by omega
  have h4 : min ((i : Int) + sub.length) ((full.length : Nat) : Int)
      = (i : Int) + sub.length := by omega
  have h5 : ((i : Int)).toNat = i := by omega
  have h6 : ((i : Int) + sub.length).toNat = i + sub.length := by omega
  simp only [pySlice, h1, h2, if_neg, ite_false, h3, h4, h5, h6]
  rw [← List.take_drop]
  exact h

/-- **C5.** `from_sequence(full, sequence)` (for a nonempty `sequence`)
returns the range covering the leftmost occurrence of `sequence` in
`full`, carrying `seq = sequence`, and raises an `IndexError` when
`sequence` does not occur; slicing `full` with the result's slice yields
`sequence` back; concretely
`Range.from_sequence("ELVISLIVES", "LIVE") = Range(6, 9, seq="LIVE")`. -/
theorem C5_from_sequence (full sub : PyStr) (hne : sub ≠ []) :
    (∀ i, strFind sub full = some i →
      SequenceRange.from_sequence full sub
          = .ok ⟨⟨(i : Int) + 1⟩, ⟨(i : Int) + sub.length⟩, some sub⟩ ∧
      occursAt full sub i ∧
      (∀ j, occursAt full sub j → i ≤ j) ∧
      pySlice full (SequenceRange.slice ⟨⟨(i : Int) + 1⟩, ⟨(i : Int) + sub.length⟩, some sub⟩).1
          (SequenceRange.slice ⟨⟨(i : Int) + 1⟩, ⟨(i : Int) + sub.length⟩, some sub⟩).2
        = sub) ∧
    (strFind sub full = none →
      SequenceRange.from_sequence full sub = .error .indexError ∧
      ∀ j, ¬ occursAt full sub j) ∧
    SequenceRange.from_sequence (elvislives) (liveStr)
      = .ok ⟨⟨6⟩, ⟨9⟩, some (liveStr)⟩ := by
  refine ⟨?_, ?_, rfl⟩
  · intro i hfind
    obtain ⟨hocc, hmin⟩ := strFind_eq_some hfind
    refine ⟨?_, hocc, ?_, ?_⟩
    · unfold SequenceRange.from_sequence
      rw [hfind]
      exact init_seq_and_full i sub full hne
    · intro j hj
      by_contra hlt
      exact hmin j (by omega) hj
    · have := pySlice_occurs hocc hne
      simpa [SequenceRange.slice] using this
  · intro hfind
    refine ⟨?_, strFind_eq_none hfind⟩
    unfold SequenceRange.from_sequence
    rw [hfind]

/-- Witness for C5 at `full = "ELVISLIVES"`, `sub = "LIVE"`. -/
theorem C5_witness :
    (liveStr ≠ []) ∧
    SequenceRange.from_sequence (elvislives) (liveStr)
      = .ok ⟨⟨6⟩, ⟨9⟩, some (liveStr)⟩ :=
  ⟨by simp [liveStr],
    (C5_from_sequence (elvislives) (liveStr)
      (by simp [liveStr])).2.2⟩

/-- **C6 counterexample.** `from_center_and_window(100, 10, max_length=5)`
raises a `ValueError` (the upper clamp pushes `stop` below `start`)
instead of producing the range `[max(1, 90), min(5, 110)] = [90, 5]`
the claim promises for every input. -/
theorem C6_counterexample :
    SequenceRange.from_center_and_window 100 10 (some 5) = .error .valueError ∧
    max 1 (100 - 10 : Int) = 90 ∧ min (5 : Int) (100 + 10) = 5 := by
  exact ⟨rfl, by norm_num, by norm_num⟩

/-- **C6 (amended).** Whenever the clamped bounds are ordered
(`max(1, center - window) ≤ min(max_length, center + window)`),
`from_center_and_window` produces exactly the range
`[max(1, center - window), min(max_length, center + window)]`
(with `max_length = none` standing for the default `+inf`); otherwise it
raises.  In particular `from_center_and_window(10, 15).pos = (1, 25)` and
`from_center_and_window(100, 10, max_length=105).pos = (90, 105)`. -/
theorem C6_center_window_amended (center window : Int) (maxl : Option Int)
    (s t : Int) (hs : s = max 1 (center - window))
    (ht : t = match maxl with
              | none => center + window
              | some m => min m (center + window))
    (hst : s ≤ t) :
    SequenceRange.from_center_and_window center window maxl = .ok ⟨⟨s⟩, ⟨t⟩, none⟩ ∧
    SequenceRange.pos ⟨⟨s⟩, ⟨t⟩, none⟩ = (s, t) ∧
    SequenceRange.from_center_and_window 10 15 none = .ok ⟨⟨1⟩, ⟨25⟩, none⟩ ∧
    SequenceRange.pos ⟨⟨1⟩, ⟨25⟩, none⟩ = (1, 25) ∧
    SequenceRange.from_center_and_window 100 10 (some 105) = .ok ⟨⟨90⟩, ⟨105⟩, none⟩ ∧
    SequenceRange.pos ⟨⟨90⟩, ⟨105⟩, none⟩ = (90, 105) := by
  subst hs ht
  refine ⟨?_, rfl, rfl, rfl, rfl, rfl⟩
  unfold SequenceRange.from_center_and_window
  exact init_int_int _ _ (le_max_left _ _) hst

/-- Witness for C6 (amended) at `center = 100`, `window = 10`,
`max_length = 105`. -/
theorem C6_witness :
    (90 : Int) = max 1 (100 - 10) ∧ (105 : Int) = min 105 (100 + 10) ∧
    (90 : Int) ≤ 105 ∧
    SequenceRange.from_center_and_window 100 10 (some 105)
      = .ok ⟨⟨90⟩, ⟨105⟩, none⟩ :=
  ⟨by norm_num, by norm_num, by norm_num,
    (C6_center_window_amended 100 10 (some 105) 90 105 (by norm_num)
      (by norm_num) (by norm_num)).1⟩

/-! ### Lemmas: `_join` with a uniform / non-uniform offset -/

theorem join_shift (r c : SequenceRange) (hwf : r.WF)
    (hc : c.start.pos = c.stop.pos) (op : Int → Int → Int) (d : Int)
    (h1 : op r.start.index c.start.index = r.start.index + d)
    (h2 : op r.stop.index c.stop.index = r.stop.index + d) :
    r.join c op = .ok ⟨⟨r.start.pos + d⟩, ⟨r.stop.pos + d⟩, r.seq⟩ := by
  unfold SequenceRange.join
  rw [if_pos hc]
  have hs : SequencePoint.join r.start c.start op = ⟨r.start.pos + d⟩ := by
    unfold SequencePoint.join
    rw [h1]
    simp [SequencePoint.index]
    ring
  have ht : SequencePoint.join r.stop c.stop op = ⟨r.stop.pos + d⟩ := by
    unfold SequencePoint.join
    rw [h2]
    simp [SequencePoint.index]
    ring
  rw [hs, ht, init_point_point]
  rcases hseq : r.seq with _ | s
  · simp [getSeq, Except.map]
  · by_cases hnil : s = []
    · subst hnil
      simp [getSeq, Except.map]
    · have hlen := hwf s hseq hnil
      simp only [SequenceRange.length] at hlen
      have hcond : (s.length : Int) = r.stop.pos + d - (r.start.pos + d) + 1 := by
        omega
      simp [getSeq, hnil, hcond, Except.map]

theorem join_nonuniform (r c : SequenceRange) (hc : ¬(c.start.pos = c.stop.pos))
    (op : Int → Int → Int) :
    r.join c op = .ok ⟨⟨op r.start.index c.start.index + 1⟩,
                      ⟨op r.stop.index c.stop.index + 1⟩, none⟩ := by
  unfold SequenceRange.join
  rw [if_neg hc, init_point_point]
  simp [getSeq, SequencePoint.join, Except.map]

/-- **C7 counterexample.** For the valid length-1 range `Range(3, 3)`,
`Point(1) + Range(3, 3)` succeeds through `Point.__add__` itself (the cast
collapses the range to its start) and yields the *point* `Point(3)`, not a
range — the claim's "for every Point p and valid Range r, p + r is a
well-defined Range" fails at this input. -/
theorem C7_counterexample :
    pyAdd (.point ⟨1⟩) (.range ⟨⟨3⟩, ⟨3⟩, none⟩) = .ok (.point ⟨3⟩) ∧
    isRangeRes (pyAdd (.point ⟨1⟩) (.range ⟨⟨3⟩, ⟨3⟩, none⟩)) = false ∧
    SequenceRange.validate ⟨⟨3⟩, ⟨3⟩, none⟩ = .ok () := by
  exact ⟨rfl, rfl, rfl⟩

/-- **C7 (amended).** When the right operand of `Point.__add__` is a valid
(well-formed) range of length other than 1 — exactly the case in which it
cannot be cast to a point — the operation returns the `NotImplemented`
sentinel, so `Point + Range` resolves through `Range.__radd__` and yields
the range shifted by the point's index, with its seq preserved. -/
theorem C7_point_plus_range_amended (p : SequencePoint) (r : SequenceRange)
    (hwf : r.WF) (hval : r.validate = .ok ()) (hlen : r.length ≠ 1) :
    addDispatch (.point p) (.range r) = .notImpl ∧
    pyAdd (.point p) (.range r)
      = .ok (.range ⟨⟨r.start.pos + p.pos - 1⟩, ⟨r.stop.pos + p.pos - 1⟩, r.seq⟩) := by
  have hord : ¬(r.stop.pos < r.start.pos) := by
    unfold SequenceRange.validate at hval
    by_cases h1 : r.start.pos < 1
    · rw [if_pos h1] at hval; cases hval
    · rw [if_neg h1] at hval
      by_cases h2 : r.stop.pos < r.start.pos
      · rw [if_pos h2] at hval; cases hval
      · exact h2
  have hlnonneg : ¬(r.length < 0) := by
    unfold SequenceRange.length
    omega
  have hdisp : addDispatch (.point p) (.range r) = .notImpl := by
    simp [addDispatch, SequencePoint.arithmetic, SequencePoint.arithCast,
          SequencePoint.make, hlnonneg, hlen, PyRes.mapv]
  refine ⟨hdisp, ?_⟩
  have hcast : SequenceRange.arithCast (.point p) = .ok ⟨p, p, none⟩ :=
    init_point_cast p
  have hjoin := join_shift r ⟨p, p, none⟩ hwf rfl (· + ·) p.index rfl rfl
  unfold pyAdd
  rw [hdisp]
  simp only [addDispatch, SequenceRange.arithmetic, hcast, hjoin, PyRes.mapv]
  simp [SequencePoint.index]
  constructor <;> ring

/-- Witness for C7 (amended) at `Point(1)` and `Range(3, 7)`. -/
theorem C7_witness :
    SequenceRange.validate ⟨⟨3⟩, ⟨7⟩, none⟩ = .ok () ∧
    SequenceRange.length ⟨⟨3⟩, ⟨7⟩, none⟩ ≠ 1 ∧
    pyAdd (.point ⟨1⟩) (.range ⟨⟨3⟩, ⟨7⟩, none⟩)
      = .ok (.range ⟨⟨3⟩, ⟨7⟩, none⟩) := by
  refine ⟨rfl, by decide, ?_⟩
  have h := (C7_point_plus_range_amended ⟨1⟩ ⟨⟨3⟩, ⟨7⟩, none⟩
    (fun s hs => by cases hs) rfl (by decide)).2
  simpa using h

/-- **C8 counterexample.** `Point(1) == "1"` evaluates to `False` even
though `"1"` is a numeric string the constructor accepts: the comparison
gate `_comparison_cast` admits only same-typed values and ints, so the
constructor cast is never attempted for strings. -/
theorem C8_counterexample :
    pyEq (.point ⟨1⟩) (.str ['1']) = .ok false ∧
    pyEq (.point ⟨1⟩) (.str ['1']) ≠ .ok true ∧
    SequencePoint.make (.str ['1']) false = .ok ⟨1⟩ := by
  have h1 : pyEq (.point ⟨1⟩) (.str ['1']) = .ok false := rfl
  exact ⟨h1, by rw [h1]; simp, rfl⟩

/-- **C8 (amended).** Equality casts its operand through the constructor
only for operands passing the comparison gate — integers and same-typed
values, plus 2-element int pairs for ranges: `Point(n) == n` is true (an
int operand is compared after an unvalidated constructor cast),
`Range(a,b) == (a, b)` is true for a seq-free range, but a numeric string
is rejected by the gate, so `Point(n) == str(n)` evaluates to false. -/
theorem C8_eq_casting_amended (n a b : Int) (hn : 1 ≤ n) (ha : 1 ≤ a)
    (hab : a ≤ b) :
    pyEq (.point ⟨n⟩) (.int n) = .ok true ∧
    (∀ m : Int, pyEq (.point ⟨n⟩) (.int m) = .ok (decide (n = m))) ∧
    pyEq (.point ⟨n⟩) (.str (intToStr n)) = .ok false ∧
    pyEq (.range ⟨⟨a⟩, ⟨b⟩, none⟩) (.pair a b) = .ok true := by
  refine ⟨?_, ?_, ?_, ?_⟩
  · simp [pyEq, eqDispatch, SequencePoint.eqOp, pointComparisonCast,
          SequencePoint.make]
  · intro m
    simp [pyEq, eqDispatch, SequencePoint.eqOp, pointComparisonCast,
          SequencePoint.make]
  · simp [pyEq, eqDispatch, SequencePoint.eqOp, pointComparisonCast]
  · simp [pyEq, eqDispatch, SequenceRange.eqOp, rangeComparisonCast,
          init_pair_cast, SequenceRange.pos]

/-- Witness for C8 (amended) at `n = 1`, `a = 5`, `b = 9`. -/
theorem C8_witness :
    (1 : Int) ≤ 1 ∧ (1 : Int) ≤ 5 ∧ (5 : Int) ≤ 9 ∧
    pyEq (.point ⟨1⟩) (.str (intToStr 1)) = .ok false :=
  ⟨by norm_num, by norm_num, by norm_num,
    (C8_eq_casting_amended 1 5 9 (by norm_num) (by norm_num) (by norm_num)).2.2.1⟩

/-- **C9 counterexample.** `Point.from_index(Point(1))` raises a
`ValueError`-kind error, not the `TypeError`-kind error the claim states
(and likewise for `Range.from_index` with a coordinate start index). -/
theorem C9_counterexample :
    SequencePoint.from_index (.point ⟨1⟩) true = .error .valueError ∧
    SequencePoint.from_index (.point ⟨1⟩) true ≠ .error .typeError ∧
    SequenceRange.from_index (.point ⟨1⟩) none true = .error .valueError ∧
    SequenceRange.from_index (.point ⟨1⟩) none true ≠ .error .typeError := by
  have h1 : SequencePoint.from_index (.point ⟨1⟩) true = .error .valueError := rfl
  have h2 : SequenceRange.from_index (.point ⟨1⟩) none true = .error .valueError := rfl
  exact ⟨h1, by rw [h1]; simp, h2, by rw [h2]; simp⟩

/-- **C9 (amended).** `Point.from_index(index)` equals
`Point(index + 1)` for a plain int index, and raises a *`ValueError`*-kind
error whenever the index is itself a Point or Range; likewise
`Range.from_index` raises `ValueError` when its start or stop index is
already a coordinate value. -/
theorem C9_from_index_amended (k : Int) (v : Bool) (p : SequencePoint)
    (r : SequenceRange) (x : PyVal) (sv : Option PyVal) :
    SequencePoint.from_index (.int k) v = SequencePoint.make (.int (k + 1)) v ∧
    SequencePoint.from_index (.point p) v = .error .valueError ∧
    SequencePoint.from_index (.range r) v = .error .valueError ∧
    SequenceRange.from_index (.point p) sv v = .error .valueError ∧
    SequenceRange.from_index (.range r) sv v = .error .valueError ∧
    SequenceRange.from_index x (some (.point p)) v = .error .valueError ∧
    SequenceRange.from_index x (some (.range r)) v = .error .valueError := by
  refine ⟨rfl, rfl, rfl, rfl, rfl, ?_, ?_⟩ <;>
    cases x <;> rfl

/-- **C10.** Range arithmetic preserves the associated seq exactly when
the cast of the other operand is a degenerate range (`start == stop`, i.e.
a uniform offset such as a plain int or a point): then `(r + o).seq =
r.seq` and `(r - o).seq = r.seq`, with both bounds shifted by the
operand's start index; when the cast has `start != stop`, the result's
seq is `None` and the bounds are joined pointwise. -/
theorem C10_join_preserves_seq (r : SequenceRange) (o : PyVal)
    (c : SequenceRange) (hwf : r.WF)
    (hcast : SequenceRange.arithCast o = .ok c) :
    (c.start.pos = c.stop.pos →
      pyAdd (.range r) o
          = .ok (.range ⟨⟨r.start.pos + c.start.index⟩,
                         ⟨r.stop.pos + c.start.index⟩, r.seq⟩) ∧
      pySub (.range r) o
          = .ok (.range ⟨⟨r.start.pos - c.start.index⟩,
                         ⟨r.stop.pos - c.start.index⟩, r.seq⟩)) ∧
    (¬(c.start.pos = c.stop.pos) →
      pyAdd (.range r) o
          = .ok (.range ⟨⟨r.start.index + c.start.index + 1⟩,
                         ⟨r.stop.index + c.stop.index + 1⟩, none⟩) ∧
      pySub (.range r) o
          = .ok (.range ⟨⟨r.start.index - c.start.index + 1⟩,
                         ⟨r.stop.index - c.stop.index + 1⟩, none⟩)) := by
  constructor
  · intro hc
    have hidx : c.stop.index = c.start.index := by
      simp [SequencePoint.index, hc]
    constructor
    · have hjoin := join_shift r c hwf hc (· + ·) c.start.index rfl
        (by rw [hidx])
      simp [pyAdd, addDispatch, SequenceRange.arithmetic, hcast, hjoin,
            PyRes.mapv]
    · have hjoin := join_shift r c hwf hc (· - ·) (-c.start.index)
        (by ring) (by rw [hidx]; ring)
      simp [pySub, subDispatch, SequenceRange.arithmetic, hcast, hjoin,
            PyRes.mapv]
      constructor <;> ring
  · intro hc
    constructor
    · have hjoin := join_nonuniform r c hc (· + ·)
      simp [pyAdd, addDispatch, SequenceRange.arithmetic, hcast, hjoin,
            PyRes.mapv]
    · have hjoin := join_nonuniform r c hc (· - ·)
      simp [pySub, subDispatch, SequenceRange.arithmetic, hcast, hjoin,
            PyRes.mapv]

/-- Witness for C10 at `Range(5, 9, seq="ELVIS") + 2` (a uniform offset:
the cast of `2` is the degenerate `Range(3, 3)`). -/
theorem C10_witness :
    SequenceRange.arithCast (.int 2)
      = .ok ⟨⟨3⟩, ⟨3⟩, none⟩ ∧
    pyAdd (.range ⟨⟨5⟩, ⟨9⟩, some ['E', 'L', 'V', 'I', 'S']⟩) (.int 2)
      = .ok (.range ⟨⟨7⟩, ⟨11⟩, some ['E', 'L', 'V', 'I', 'S']⟩) := by
  have hwf : SequenceRange.WF ⟨⟨5⟩, ⟨9⟩, some ['E', 'L', 'V', 'I', 'S']⟩ := by
    intro s hs hne
    injection hs with h
    subst h
    decide
  have h := (C10_join_preserves_seq ⟨⟨5⟩, ⟨9⟩, some ['E', 'L', 'V', 'I', 'S']⟩
    (.int 2) ⟨⟨3⟩, ⟨3⟩, none⟩ hwf rfl).1 rfl
  refine ⟨rfl, ?_⟩
  have h1 := h.1
  simpa [SequencePoint.index] using h1

end Sequtils
